import Mathlib

/-!
Verification development for the deterministic alarm-report processor
(`file/deterministic-processor.ts`, function `processDeterministic` and its
helpers).

Modelling conventions of the shallow embedding:

* Instants are integers counting whole seconds on a linear local-time line
  (no DST, no leap seconds); a calendar day is the integer `instant / 86400`.
  The source stores instants in JavaScript `Date` values, formats them as
  `dd/mm/yyyy HH:mm:ss` strings and re-parses those strings; rows carry
  instants directly and the render/reparse step of the uniqueness pass is
  modelled literally (`formatDateTime` then `parseTimestamp`), because the
  round trip is the identity only for calendar years 1000–9999 — the year is
  rendered unpadded — and the source skips deduplication for rows whose
  rendering fails to reparse.
* JavaScript numbers holding small integers are exact in IEEE 754 doubles;
  all arithmetic the source performs (`hash` steps, the linear-congruential
  generator, `Math.floor` of products below 2^53) is therefore mirrored by
  exact integer arithmetic, with integer `%` and `/` (Euclidean, agreeing with flooring for the positive divisors in use) and `Nat` division
  standing in for JavaScript `%`, flooring and `Math.floor`.
* Raw spreadsheet rows are association lists of field name to a loosely
  typed value, mirroring the dynamically typed `ExcelRow` objects.
* ASCII case conversion stands in for JavaScript case conversion; the
  fixed vocabulary the processor probes for is ASCII or already upper-case.
-/

/-- Time-of-day components as produced by `secondsToTime`. -/
structure Tod where
  hour : Nat
  minute : Nat
  second : Nat
deriving DecidableEq, Repr

/-- Function `timeToSeconds` of the source: seconds since midnight of an (hour, minute)
pair (the optional seconds argument defaults to 0 at every call site). -/
def timeToSeconds (hour minute : Nat) : Nat :=
  hour * 3600 + minute * 60

/-- Function `secondsToTime` of the source: reduce modulo one day and split into
hour, minute and second. -/
def secondsToTime (seconds : Nat) : Tod :=
  let s := seconds % (24 * 3600)
  { hour := s / 3600, minute := s % 3600 / 60, second := s % 60 }

/-- Wrap an integer to the signed 32-bit range, as JavaScript `| 0` /
`hash & hash` coercion does. -/
def toInt32 (z : Int) : Int :=
  (z + 2 ^ 31) % 2 ^ 32 - 2 ^ 31

/-- The seed hash loop of `randomTimeBetween`:
`hash = ((hash << 5) - hash) + charCode`, coerced to a 32-bit integer at each
step.  Characters of the seed keys in use are ASCII, so `Char.toNat` agrees
with `charCodeAt`. -/
def jsHashString (s : String) : Int :=
  s.data.foldl (fun hash c => toInt32 (toInt32 (hash * 32) - hash + c.toNat)) 0

/-- Function `randomTimeBetween` of the source: hash the seed key, run one step of the
linear-congruential generator `rnd = (rnd * 9301 + 49297) % 233280`, and use
`rnd / 233280 ∈ [0,1)` to pick a second offset inside the window.
`Math.floor (next () * (range + 1))` is exactly `rnd * (range + 1) / 233280`
in integer arithmetic (the float computation is exact, see header). -/
def randomTimeBetween (seedKey : String) (startHour startMinute endHour endMinute : Nat) :
    Tod :=
  let seed := (jsHashString seedKey).natAbs
  let rnd := (seed * 9301 + 49297) % 233280
  let startSeconds := timeToSeconds startHour startMinute
  let endSeconds := timeToSeconds endHour endMinute
  let randomSeconds :=
    if startSeconds ≤ endSeconds then
      let range := endSeconds - startSeconds
      startSeconds + rnd * (range + 1) / 233280
    else
      let range1 := 24 * 3600 - startSeconds
      let range2 := endSeconds + 1
      let total := range1 + range2
      let pick := rnd * total / 233280
      if pick < range1 then startSeconds + pick else pick - range1
  secondsToTime randomSeconds

/-- Days since 1970-01-01 of a proleptic-Gregorian civil date (the month may
be any integer month index carry; JavaScript `Date` normalizes out-of-range
components the same way). -/
def daysFromCivil (y m d : Int) : Int :=
  let yy := if m ≤ 2 then y - 1 else y
  let era := yy / 400
  let yoe := yy - era * 400
  let mp := if 2 < m then m - 3 else m + 9
  let doy := (153 * mp + 2) / 5 + d - 1
  let doe := yoe * 365 + yoe / 4 - yoe / 100 + doy
  era * 146097 + doe - 719468

/-- Civil date (year, month, day) of a day count since 1970-01-01. -/
def civilFromDays (z : Int) : Int × Int × Int :=
  let z' := z + 719468
  let era := z' / 146097
  let doe := z' - era * 146097
  let yoe := (doe - doe / 1460 + doe / 36524 - doe / 146096) / 365
  let y := yoe + era * 400
  let doy := doe - (365 * yoe + yoe / 4 - yoe / 100)
  let mp := (5 * doy + 2) / 153
  let d := doy - (153 * mp + 2) / 5 + 1
  let m := if mp < 10 then mp + 3 else mp - 9
  (if m ≤ 2 then y + 1 else y, m, d)

/-- Pad a decimal rendering with leading zeros. -/
def padLeft0 (s : String) (w : Nat) : String :=
  if w ≤ s.length then s else String.mk (List.replicate (w - s.length) '0') ++ s

/-- The `yyyy-mm-dd` part of `Date.toISOString` for a day number (years of
interest are 1000–9999; the server clock offset keeps the UTC date equal to
the local date for the data at hand). -/
def isoDateString (day : Int) : String :=
  let c := civilFromDays day
  padLeft0 (toString c.1.toNat) 4 ++ "-" ++ padLeft0 (toString c.2.1.toNat) 2 ++ "-" ++
    padLeft0 (toString c.2.2.toNat) 2

/-- Instant built by the JavaScript `Date` constructor from local calendar
components (month is 0-based as in the source calls; out-of-range components
carry over exactly as `Date` normalizes them). -/
def jsMakeDate (year monthIndex day hour minute second : Int) : Int :=
  let ym := year * 12 + monthIndex
  daysFromCivil (ym / 12) (ym % 12 + 1) 1 * 86400 + (day - 1) * 86400 +
    hour * 3600 + minute * 60 + second

/-- Convenience constructor for concrete instants in examples (1-based month,
in-range components). -/
def instantOf (y m d h mi s : Int) : Int :=
  daysFromCivil y m d * 86400 + h * 3600 + mi * 60 + s

/-- Day number of an instant (`getDateOnly` of the source: the local calendar
date with the time stripped). -/
def getDateOnly (t : Int) : Int :=
  t / 86400

/-- Seconds since local midnight of an instant. -/
def todOf (t : Int) : Int :=
  t % 86400

/-- Local hour of an instant (`Date.getHours`). -/
def hourOf (t : Int) : Int :=
  todOf t / 3600

/-- Local minute of an instant (`Date.getMinutes`). -/
def minuteOf (t : Int) : Int :=
  todOf t % 3600 / 60

example : daysFromCivil 1970 1 1 = 0 := by decide
example : daysFromCivil 2025 10 31 = 20392 := by decide
example : civilFromDays 20392 = (2025, 10, 31) := by decide
example : isoDateString 20392 = "2025-10-31" := by decide

/-! ### JavaScript-style strings and loosely typed row values -/

/-- ASCII upper-casing of one character (the probing vocabulary of the source
is ASCII or already upper-case, see header). -/
def asciiUpper (c : Char) : Char :=
  if 'a' ≤ c ∧ c ≤ 'z' then Char.ofNat (c.toNat - 32) else c

/-- ASCII lower-casing of one character. -/
def asciiLower (c : Char) : Char :=
  if 'A' ≤ c ∧ c ≤ 'Z' then Char.ofNat (c.toNat + 32) else c

/-- JavaScript `toUpperCase` on the fragment of strings in use. -/
def jsUpper (s : String) : String :=
  String.mk (s.data.map asciiUpper)

/-- JavaScript `toLowerCase` on the fragment of strings in use. -/
def jsLower (s : String) : String :=
  String.mk (s.data.map asciiLower)

/-- Whitespace test of the regex class `\s` (the characters occurring in
spreadsheet text). -/
def isWsChar (c : Char) : Bool :=
  c = ' ' ∨ c = '\t' ∨ c = '\n' ∨ c = '\r'

/-- Decimal digit test of the regex class `\d`. -/
def isDigitChar (c : Char) : Bool :=
  '0' ≤ c ∧ c ≤ '9'

/-- JavaScript `String.prototype.trim`. -/
def jsTrim (s : String) : String :=
  String.mk (((s.data.dropWhile isWsChar).reverse.dropWhile isWsChar).reverse)

/-- Does `pat` occur at the start of `s`? -/
def listIsInit (pat s : List Char) : Bool :=
  match pat, s with
  | [], _ => true
  | _ :: _, [] => false
  | p :: ps, c :: cs => p = c && listIsInit ps cs

/-- Does `pat` occur anywhere inside `s` (JavaScript `includes`)? -/
def listHasSub (pat s : List Char) : Bool :=
  match s with
  | [] => listIsInit pat []
  | _ :: cs => listIsInit pat s || listHasSub pat cs

/-- JavaScript `String.prototype.includes`. -/
def jsIncludes (s pat : String) : Bool :=
  listHasSub pat.data s.data

/-- Loosely typed spreadsheet cell values as delivered to the processor:
text, a number, a native `Date` (an instant), or `null`.  Absent fields are
`Option.none` at the lookup. -/
inductive JsVal where
  | vStr : String → JsVal
  | vNum : Int → JsVal
  | vDate : Int → JsVal
  | vNull : JsVal
deriving DecidableEq, Repr

/-- A raw spreadsheet row (`ExcelRow`): insertion-ordered field list. -/
def ExcelRow := List (String × JsVal)

instance : DecidableEq ExcelRow := by
  unfold ExcelRow; infer_instance

/-- Property access `row[key]` (`none` when the field is absent). -/
def jsLookup (row : ExcelRow) (key : String) : Option JsVal :=
  (List.find? (fun p => p.1 = key) row).map (fun p => p.2)

/-- The key list `Object.keys(row)` in insertion order. -/
def jsKeys (row : ExcelRow) : List String :=
  List.map (fun p => p.1) row

/-- JavaScript truthiness of a possibly-absent cell value. -/
def jsTruthy : Option JsVal → Bool
  | none => false
  | some JsVal.vNull => false
  | some (JsVal.vStr s) => !(s = "")
  | some (JsVal.vNum n) => !(n = 0)
  | some (JsVal.vDate _) => true

/-- JavaScript `String(v)` on cell values (dates never reach it in the
source paths modelled here). -/
def jsToStr : JsVal → String
  | JsVal.vStr s => s
  | JsVal.vNum n => toString n
  | JsVal.vDate _ => "[Date]"
  | JsVal.vNull => "null"

/-- JavaScript `String(v || '')`: the empty string for falsy values, else `String(v)`. -/
def jsStrOrEmpty (v : Option JsVal) : String :=
  if jsTruthy v then jsToStr (v.getD JsVal.vNull) else ""

/-- Short-circuiting `a || b` on strings. -/
def jsOr (a b : String) : String :=
  if a = "" then b else a

/-! ### Timestamp parsing and event classification -/

/-- Exactly two decimal digits, as the regex group `(\d{2})`. -/
def takeDigits2 : List Char → Option (Nat × List Char)
  | a :: b :: rest =>
    if isDigitChar a && isDigitChar b then
      some ((a.toNat - 48) * 10 + (b.toNat - 48), rest)
    else none
  | _ => none

/-- Exactly four decimal digits, as the regex group `(\d{4})`. -/
def takeDigits4 : List Char → Option (Nat × List Char)
  | a :: b :: c :: d :: rest =>
    if isDigitChar a && isDigitChar b && isDigitChar c && isDigitChar d then
      some (((a.toNat - 48) * 10 + (b.toNat - 48)) * 100 + (c.toNat - 48) * 10 +
        (d.toNat - 48), rest)
    else none
  | _ => none

/-- One expected literal character. -/
def expectChar (c : Char) : List Char → Option (List Char)
  | [] => none
  | d :: rest => if d = c then some rest else none

/-- The regex `\s+`: at least one whitespace character, consumed greedily
(every following pattern token is non-whitespace, so greed is harmless). -/
def matchWs1 : List Char → Option (List Char)
  | [] => none
  | c :: cs => if isWsChar c then some (cs.dropWhile isWsChar) else none

/-- One attempt of the timestamp regex
`(\d{2})\/(\d{2})\/(\d{4})\s+(\d{2}):(\d{2})(?::(\d{2}))?` anchored at the
start of `s`, yielding the instant `new Date(year, month-1, day, ...)`
builds. -/
def tsMatchAt (s : List Char) : Option Int := do
  let (day, s) ← takeDigits2 s
  let s ← expectChar '/' s
  let (month, s) ← takeDigits2 s
  let s ← expectChar '/' s
  let (year, s) ← takeDigits4 s
  let s ← matchWs1 s
  let (hour, s) ← takeDigits2 s
  let s ← expectChar ':' s
  let (minute, s) ← takeDigits2 s
  let second : Nat :=
    match expectChar ':' s >>= takeDigits2 with
    | some (sec, _) => sec
    | none => 0
  return jsMakeDate year ((month : Int) - 1) day hour minute second

/-- Unanchored search of the timestamp regex (leftmost match wins). -/
def tsScan : List Char → Option Int
  | [] => none
  | c :: cs =>
    match tsMatchAt (c :: cs) with
    | some t => some t
    | none => tsScan cs

/-- Function `parseTimestamp` of the source.  A falsy cell is rejected; a native
`Date` is taken as is; text is searched for `dd/mm/yyyy HH:mm[:ss]`.  The
final engine-specific `new Date(string)` fallback of the source is modelled
as a parse failure (its behaviour on non-ISO text is implementation
defined). -/
def parseTimestamp (dataRecebimento : Option JsVal) : Option Int :=
  if !(jsTruthy dataRecebimento) then none
  else
    match dataRecebimento with
    | some (JsVal.vDate t) => some t
    | _ => tsScan (jsToStr ((dataRecebimento).getD JsVal.vNull)).data

/-- Function `formatDateTime` of the source: renders an instant as
`dd/mm/yyyy HH:mm:ss` with day, month, hour, minute and second padded to two
digits via `padStart(2, '0')` — but the year (`date.getFullYear()`) is NOT
padded, so years below 1000 render with fewer than four digits and years
above 9999 with more, and such renderings fail the reparse of
`parseTimestamp`. -/
def formatDateTime (t : Int) : String :=
  let c := civilFromDays (getDateOnly t)
  padLeft0 (toString c.2.2.toNat) 2 ++ "/" ++ padLeft0 (toString c.2.1.toNat) 2 ++ "/" ++
    toString c.1 ++ " " ++ padLeft0 (toString (hourOf t).toNat) 2 ++ ":" ++
    padLeft0 (toString (minuteOf t).toNat) 2 ++ ":" ++
    padLeft0 (toString (todOf t % 60).toNat) 2

/-- Event classes of `classifyEvent` (`OTHER` rows are discarded by the
caller and never become events). -/
inductive EventType where
  | desarme : EventType
  | arme : EventType
  | other : EventType
deriving DecidableEq, Repr

/-- Constant `EVENT_CODES.DISARMED` of `shared/business-rules.ts`. -/
def EVENT_CODES_DISARMED : Int := 1401

/-- Constant `EVENT_CODES.ARMED` of `shared/business-rules.ts`. -/
def EVENT_CODES_ARMED : Int := 3401

/-- Function `classifyEvent` of the source: the numeric event code decides first
(strict equality, so only numeric cells match), the upper-cased description
is the fallback. -/
def classifyEvent (row : ExcelRow) : EventType :=
  let codigo := jsLookup row "Código do evento"
  let descricao := jsUpper (jsStrOrEmpty (jsLookup row "Descrição"))
  if codigo = some (JsVal.vNum EVENT_CODES_DISARMED) ∨ codigo = some (JsVal.vNum 1401) then
    EventType.desarme
  else if codigo = some (JsVal.vNum EVENT_CODES_ARMED) ∨ codigo = some (JsVal.vNum 3401) then
    EventType.arme
  else if jsIncludes descricao "DESARM" || jsIncludes descricao "DESARME" then
    EventType.desarme
  else if jsIncludes descricao "ARM" && !(jsIncludes descricao "DESARM") then
    EventType.arme
  else
    EventType.other

/-- One attempt of the branch regex `LOJA\s*(\d+)` anchored at the start of
`s` (the subject is already upper-cased). -/
def lojaMatchAt (s : List Char) : Option (List Char) :=
  if listIsInit ['L', 'O', 'J', 'A'] s then
    let ds := ((s.drop 4).dropWhile isWsChar).takeWhile isDigitChar
    if ds = [] then none else some ds
  else none

/-- Unanchored search of the branch regex. -/
def lojaScan : List Char → Option (List Char)
  | [] => none
  | c :: cs =>
    match lojaMatchAt (c :: cs) with
    | some ds => some ds
    | none => lojaScan cs

/-- Function `extractFilial` of the source: `LOJA <digits>` wins, then the literal
`ESCRITÓRIO`, then an all-digit account is used trimmed, else the raw
upper-cased text. -/
def extractFilial (conta : Option JsVal) : String :=
  if !(jsTruthy conta) then "INDEFINIDO"
  else
    let contaStr := jsUpper (jsToStr (conta.getD JsVal.vNull))
    match lojaScan contaStr.data with
    | some digits => String.mk digits
    | none =>
      if jsIncludes contaStr "ESCRITÓRIO" then "ESCRITÓRIO"
      else if (jsTrim contaStr).data ≠ [] ∧ (jsTrim contaStr).data.all isDigitChar then
        jsTrim contaStr
      else contaStr

/-! ### Operator extraction -/

/-- Case-insensitive character comparison (ASCII folding, see header). -/
def caseEqChar (a b : Char) : Bool :=
  asciiUpper a = asciiUpper b

/-- Case-insensitive literal match at the start of `s`, returning the
remainder. -/
def matchLit (pat s : List Char) : Option (List Char) :=
  match pat, s with
  | [], rest => some rest
  | _ :: _, [] => none
  | p :: ps, c :: cs => if caseEqChar p c then matchLit ps cs else none

/-- Two literal words separated by `\s+`. -/
def matchPhrase (w1 w2 : String) (s : List Char) : Option (List Char) :=
  matchLit w1.data s >>= fun s1 => matchWs1 s1 >>= fun s2 => matchLit w2.data s2

/-- The leading alternation of `cleanOperadorName`
(`^(SR\.|SRA\.|PELO\s+USUARIO|PELO\s+USUÁRIO|POR\s+USUARIO|POR\s+USUÁRIO|…)`),
alternatives tried in source order; the final duplicated alternative of the
source regex is subsumed by the fourth and unreachable. -/
def matchCleanAlt (s : List Char) : Option (List Char) :=
  matchLit "SR.".data s <|> matchLit "SRA.".data s <|>
    matchPhrase "PELO" "USUARIO" s <|> matchPhrase "PELO" "USUÁRIO" s <|>
    matchPhrase "POR" "USUARIO" s <|> matchPhrase "POR" "USUÁRIO" s

/-- Function `cleanOperadorName` of the source: trim, strip one leading honorific or
`PELO/POR USUARIO` phrase plus following whitespace, trim again. -/
def cleanOperadorName (nome : String) : String :=
  if nome = "" then ""
  else
    let cleaned := jsTrim nome
    if cleaned = "" then ""
    else
      let afterStrip :=
        match matchCleanAlt cleaned.data with
        | some rest => rest.dropWhile isWsChar
        | none => cleaned.data
      let cleaned2 := jsTrim (String.mk afterStrip)
      if cleaned2 = "" then "" else cleaned2

/-- The ordered header-name candidates probed first by
`getOperadorOriginal`. -/
def possibleOperKeys : List String :=
  ["Usuário", "Usuario", "USUÁRIO", "USUARIO",
   "Operador", "OPERADOR",
   "Usuário(a)", "Usuario(a)", "USUÁRIO(A)",
   "Operador(a)", "OPERADOR(A)",
   "User", "USER",
   "Nome", "NOME",
   "Nome do Usuário", "Nome do Usuario",
   "Nome do Operador"]

/-- First probing pass of `getOperadorOriginal`: exact known header names,
first non-empty trimmed value wins. -/
def probeKnownKeys (row : ExcelRow) : List String → Option String
  | [] => none
  | k :: ks =>
    match jsLookup row k with
    | some v =>
      if v ≠ JsVal.vNull ∧ v ≠ JsVal.vStr "" then
        let valor := jsTrim (jsToStr v)
        if valor ≠ "" then some (cleanOperadorName valor) else probeKnownKeys row ks
      else probeKnownKeys row ks
    | none => probeKnownKeys row ks

/-- The substrings that mark a column as operator-related in the second
pass. -/
def operadorKeywords : List String :=
  ["usuario", "usuário", "operador", "user", "nome"]

/-- Second probing pass of `getOperadorOriginal`: scan all column names for
operator-related substrings. -/
def scanKeysForOper (row : ExcelRow) : List String → Option String
  | [] => none
  | k :: ks =>
    let keyLower := jsTrim (jsLower k)
    if operadorKeywords.any (fun kw => jsIncludes keyLower kw) then
      match jsLookup row k with
      | some v =>
        if v ≠ JsVal.vNull ∧ v ≠ JsVal.vStr "" then
          let valorStr := jsTrim (jsToStr v)
          if valorStr ≠ "" then some (cleanOperadorName valorStr) else scanKeysForOper row ks
        else scanKeysForOper row ks
      | none => scanKeysForOper row ks
    else scanKeysForOper row ks

/-- One attempt of the description regex
`(?:PELO|POR)\s+USU[ÁA]RIO\s*[-\s]+\s*(?:SR\.|SRA\.)?\s*(.+)` anchored at
the start of `s`; `\s*[-\s]+\s*` is one or more dash-or-whitespace
characters.  Regex backtracking around the optional honorific only ever
produces captures that the caller reduces to the empty operator, and is
folded into the failing branch here, which yields the same final result. -/
def descPatternAt (s : List Char) : Option (List Char) :=
  (matchLit "PELO".data s <|> matchLit "POR".data s) >>= fun s1 =>
  matchWs1 s1 >>= fun s2 =>
  matchLit "USU".data s2 >>= fun s3 =>
  (match s3 with
   | c :: cs => if caseEqChar c 'Á' || caseEqChar c 'A' then some cs else none
   | [] => none) >>= fun s4 =>
  matchLit "RIO".data s4 >>= fun s5 =>
  (match s5 with
   | c :: cs =>
     if c = '-' || isWsChar c then some (cs.dropWhile (fun d => d = '-' || isWsChar d))
     else none
   | [] => none) >>= fun s6 =>
  let s7 :=
    match matchLit "SR.".data s6 <|> matchLit "SRA.".data s6 with
    | some rest =>
      let r := rest.dropWhile isWsChar
      if r = [] then s6 else r
    | none => s6
  if s7 = [] then none else some s7

/-- Unanchored search of the description regex. -/
def descScan : List Char → Option (List Char)
  | [] => none
  | c :: cs =>
    match descPatternAt (c :: cs) with
    | some cap => some cap
    | none => descScan cs

/-- Function `getOperadorOriginal` of the source: known headers, then keyword-matched
headers, then the description regex; every failure path degrades to the
empty string, never an error. -/
def getOperadorOriginal (row : ExcelRow) : String :=
  match probeKnownKeys row possibleOperKeys with
  | some res => res
  | none =>
    match scanKeysForOper row (jsKeys row) with
    | some res => res
    | none =>
      let descricao := jsLookup row "Descrição"
      if jsTruthy descricao then
        let descricaoStr := jsTrim (jsToStr (descricao.getD JsVal.vNull))
        match descScan descricaoStr.data with
        | some cap =>
          let nomeExtraido := jsTrim (String.mk cap)
          let nomeLimpo := jsTrim (String.mk (nomeExtraido.data.takeWhile
            (fun c => !(c = '-' || c = '–' || isWsChar c))))
          if nomeLimpo ≠ "" then cleanOperadorName nomeLimpo else ""
        | none => ""
      else ""

/-! ### Classified events and the per-day resolution loop -/

/-- Structure `ClassifiedEvent` of the source (`OTHER` events are never
materialized). -/
structure ClassifiedEvent where
  timestamp : Int
  type : EventType
  operador : String
  filial : String
  date : Int
deriving DecidableEq, Repr

/-- Classification of one raw row (the body of the first loop of
`processDeterministic`): records with an unparsable timestamp or an `OTHER`
type yield no event. -/
def mkEvent (row : ExcelRow) : Option ClassifiedEvent :=
  match parseTimestamp (jsLookup row "Data de recebimento") with
  | none => none
  | some timestamp =>
    let type := classifyEvent row
    if type = EventType.other then none
    else
      some { timestamp := timestamp, type := type,
             operador := getOperadorOriginal row,
             filial := extractFilial (jsLookup row "Conta"),
             date := getDateOnly timestamp }

/-- The full classified event stream, in input order. -/
def classifyEvents (rawData : List ExcelRow) : List ClassifiedEvent :=
  rawData.filterMap mkEvent

/-- Branch keys in `Map` insertion order (order of each branch's first
event), as `filialDateRanges.entries()` iterates them. -/
def filialOrder (events : List ClassifiedEvent) : List String :=
  events.foldl (fun acc e => if e.filial ∈ acc then acc else acc ++ [e.filial]) []

/-- Calendar dates of a branch's events, in event order. -/
def datesOf (events : List ClassifiedEvent) (filial : String) : List Int :=
  (events.filter (fun e => decide (e.filial = filial))).map (fun e => e.date)

/-- Minimum of a nonempty list, seeded from the first element exactly as the
`Map` range accumulation does (`0` only for the never-queried empty list). -/
def listMin : List Int → Int
  | [] => 0
  | x :: xs => xs.foldl min x

/-- Maximum of a nonempty list, seeded like `listMin`. -/
def listMax : List Int → Int
  | [] => 0
  | x :: xs => xs.foldl max x

/-- Day numbers visited by `while (currentDate <= endDate)`, one step per
day. -/
def dayList (a b : Int) : List Int :=
  (List.range (b + 1 - a).toNat).map (fun (i : Nat) => a + (i : Int))

/-- Stable insertion of `x` into `l`: `x` goes before the first strictly
greater element, hence after every tied one — the placement JavaScript's
stable `Array.prototype.sort` gives elements processed left to right. -/
def insOrd (lt : α → α → Bool) (x : α) : List α → List α
  | [] => [x]
  | y :: ys => if lt x y then x :: y :: ys else y :: insOrd lt x ys

/-- Stable sort by the strict comparison `lt` (models the stable
`Array.prototype.sort` with a numeric comparator). -/
def sortStable (lt : α → α → Bool) (l : List α) : List α :=
  l.foldl (fun acc x => insOrd lt x acc) []

/-- Hour part of `OPEN_MIN` of the source. -/
def OPEN_MIN_hour : Nat := 5
/-- Minute part of `OPEN_MIN`. -/
def OPEN_MIN_minute : Nat := 30
/-- Hour part of `OPEN_MAX` of the source. -/
def OPEN_MAX_hour : Nat := 8
/-- Minute part of `OPEN_MAX`. -/
def OPEN_MAX_minute : Nat := 30
/-- Hour part of `CLOSE_START` of the source. -/
def CLOSE_START_hour : Nat := 22
/-- Minute part of `CLOSE_START`. -/
def CLOSE_START_minute : Nat := 30
/-- Hour part of `CLOSE_END` of the source. -/
def CLOSE_END_hour : Nat := 1
/-- Minute part of `CLOSE_END`. -/
def CLOSE_END_minute : Nat := 30

/-- Function `isInOpenWindow` of the source: compares only hour and minute (seconds
are dropped by `timeToSeconds(hour, minute)`). -/
def isInOpenWindow (t : Int) : Bool :=
  let timeSeconds := hourOf t * 3600 + minuteOf t * 60
  (timeToSeconds OPEN_MIN_hour OPEN_MIN_minute : Int) ≤ timeSeconds ∧
    timeSeconds ≤ (timeToSeconds OPEN_MAX_hour OPEN_MAX_minute : Int)

/-- Time-of-day seconds of a `Tod` triple. -/
def todSeconds (t : Tod) : Nat :=
  t.hour * 3600 + t.minute * 60 + t.second

/-- The synthesized opening instant for a (branch, day): the seeded random
time placed on the day itself (`new Date(y, m, d, h, mi, s)` of the two
identical `OPEN` synthesis blocks of the source). -/
def synthAbertura (filial : String) (day : Int) : Int :=
  let randomTime := randomTimeBetween ("OPEN-" ++ filial ++ "-" ++ isoDateString day)
    OPEN_MIN_hour OPEN_MIN_minute OPEN_MAX_hour OPEN_MAX_minute
  day * 86400 + todSeconds randomTime

/-- The synthesized closing instant for a (branch, day): the seeded random
time, placed on the next day when it falls in `00:00–01:30` (the two
identical `CLOSE` synthesis blocks of the source). -/
def synthFechamento (filial : String) (day : Int) : Int :=
  let randomTime := randomTimeBetween ("CLOSE-" ++ filial ++ "-" ++ isoDateString day)
    CLOSE_START_hour CLOSE_START_minute CLOSE_END_hour CLOSE_END_minute
  if randomTime.hour = 0 ∨ (randomTime.hour = 1 ∧ randomTime.minute ≤ 30) then
    (day + 1) * 86400 + todSeconds randomTime
  else
    day * 86400 + todSeconds randomTime

/-- One output row (`ProcessedRow` of the source, with instants in place of
their `dd/mm/yyyy HH:mm:ss` renderings). -/
structure ProcessedRow where
  filial : String
  uf : String
  abertura : Int
  fechamento : Int
  operadorAbertura : String
  operadorFechamento : String
deriving DecidableEq, Repr

/-- The per-branch loop state: previous day's operators (empty string for
the initial `null`s — stored values are always trim-non-empty) and the
consumed `ARME` timestamps. -/
structure DayState where
  prevAbOp : String
  prevFeOp : String
  used : Finset Int

/-- The closing-window test of the source (`dentroJanela`): `00:00–01:30`
for a next-day event, `22:30–23:59` for a same-day one. -/
def dentroJanelaClose (dateKey : Int) (t : Int) : Bool :=
  let hour := hourOf t
  let minute := minuteOf t
  if getDateOnly t ≠ dateKey then
    hour = 0 ∨ (hour = 1 ∧ minute ≤ 30)
  else
    (hour = 22 ∧ 30 ≤ minute) ∨ hour = 23

/-- The opening instant of one day (`Processar ABERTURA` block): the first
same-day `DESARME` kept when inside the opening window, else synthesized. -/
def aberturaOf (filial : String) (day : Int) (desarmes : List ClassifiedEvent) : Int :=
  match desarmes with
  | firstDesarme :: _ =>
    if !(isInOpenWindow firstDesarme.timestamp) then synthAbertura filial day
    else firstDesarme.timestamp
  | [] => synthAbertura filial day

/-- The closing instant of one day (`Processar FECHAMENTO` block): the
selected `ARME` kept when inside the closing window, else synthesized. -/
def fechamentoOf (filial : String) (day : Int) (armes : List ClassifiedEvent) : Int :=
  match armes with
  | lastArme :: _ =>
    if !(dentroJanelaClose day lastArme.timestamp) then synthFechamento filial day
    else lastArme.timestamp
  | [] => synthFechamento filial day

/-- One iteration of the day loop of `processDeterministic` (source lines
533–817): event pools, opening, closing, operator fallbacks, the
equal-instant guard, and the carry-forward state update. -/
def processDay (filial : String) (filialEvents : List ClassifiedEvent) (day : Int)
    (st : DayState) : ProcessedRow × DayState :=
  let dayEvents := filialEvents.filter (fun e => decide (e.date = day))
  let nextDayEvents := filialEvents.filter (fun e => decide
    (getDateOnly e.timestamp = day + 1 ∧
      (hourOf e.timestamp = 0 ∨ (hourOf e.timestamp = 1 ∧ minuteOf e.timestamp ≤ 30))))
  let desarmes := sortStable (fun a b => decide (a.timestamp < b.timestamp))
    (dayEvents.filter (fun e => decide (e.type = EventType.desarme)))
  let armesDay := sortStable (fun a b => decide (b.timestamp < a.timestamp))
    (dayEvents.filter (fun e => decide (e.type = EventType.arme ∧ e.timestamp ∉ st.used)))
  let armesNextDay := sortStable (fun a b => decide (b.timestamp < a.timestamp))
    (nextDayEvents.filter (fun e => decide (e.type = EventType.arme ∧ e.timestamp ∉ st.used)))
  let armes := if armesDay.length ≠ 0 then armesDay else armesNextDay
  let abertura := aberturaOf filial day desarmes
  let aberturaOperador0 :=
    match desarmes with
    | firstDesarme :: _ => jsOr firstDesarme.operador ""
    | [] => jsOr st.prevAbOp (jsOr st.prevFeOp "")
  let aberturaOperador1 :=
    if aberturaOperador0 = "" ∨ jsTrim aberturaOperador0 = "" then
      jsOr st.prevAbOp (jsOr st.prevFeOp "")
    else aberturaOperador0
  let fechamento0 := fechamentoOf filial day armes
  let fechamentoOperador0 :=
    match armes with
    | lastArme :: _ => jsOr lastArme.operador ""
    | [] => jsOr st.prevFeOp (jsOr st.prevAbOp "")
  let used' :=
    match armes with
    | lastArme :: _ => insert lastArme.timestamp st.used
    | [] => st.used
  let fechamentoOperador1 :=
    if fechamentoOperador0 = "" ∨ jsTrim fechamentoOperador0 = "" then
      jsOr st.prevFeOp (jsOr st.prevAbOp (jsOr aberturaOperador1 ""))
    else fechamentoOperador0
  let fechamentoOperador :=
    if fechamentoOperador1 = "" ∨ jsTrim fechamentoOperador1 = "" then
      jsOr aberturaOperador1 ""
    else fechamentoOperador1
  let aberturaOperador :=
    if aberturaOperador1 = "" ∨ jsTrim aberturaOperador1 = "" then
      jsOr fechamentoOperador ""
    else aberturaOperador1
  let fechamento := if abertura = fechamento0 then fechamento0 + 1 else fechamento0
  (⟨filial, "SE", abertura, fechamento,
      jsOr aberturaOperador "", jsOr fechamentoOperador ""⟩,
   ⟨if !(aberturaOperador = "" ∨ jsTrim aberturaOperador = "") then aberturaOperador
      else st.prevAbOp,
    if !(fechamentoOperador = "" ∨ jsTrim fechamentoOperador = "") then fechamentoOperador
      else st.prevFeOp,
    used'⟩)

/-- The day loop over a branch's date range, threading the carry-forward
state. -/
def processDays (filial : String) (filialEvents : List ClassifiedEvent)
    (st : DayState) : List Int → List ProcessedRow
  | [] => []
  | day :: rest =>
    let out := processDay filial filialEvents day st
    out.1 :: processDays filial filialEvents out.2 rest

/-- One branch's rows (the body of the `for (const [filial, range] …)`
loop). -/
def processFilial (events : List ClassifiedEvent) (filial : String) : List ProcessedRow :=
  let filialEvents := events.filter (fun e => decide (e.filial = filial))
  let dmin := listMin (datesOf events filial)
  let dmax := listMax (datesOf events filial)
  processDays filial filialEvents ⟨"", "", ∅⟩ (dayList dmin dmax)

/-- All rows before the uniqueness pass, branches in `Map` insertion
order. -/
def processedRowsPre (rawData : List ExcelRow) : List ProcessedRow :=
  let events := classifyEvents rawData
  ((filialOrder events).map (processFilial events)).flatten

/-! ### The uniqueness pass -/

/-- The `while (seen.has(t))` advancement loop: step forward one second at a
time until a free instant is found.  The fuel (always at least
`occupied.card + 1` at the call sites) suffices to reach the first free
instant, so the recursion computes exactly what the source loop does. -/
def bumpFree (occupied : Finset Int) (t : Int) : Nat → Int
  | 0 => t
  | fuel + 1 => if t ∈ occupied then bumpFree occupied (t + 1) fuel else t

/-- The `while (seen.has(t) || t === abertura)` advancement loop for the
closing instant. -/
def bumpFreeC (seen : Finset Int) (abertura t : Int) : Nat → Int
  | 0 => t
  | fuel + 1 =>
    if t ∈ seen ∨ t = abertura then bumpFreeC seen abertura (t + 1) fuel else t

/-- The render/reparse round trip `parseTimestamp(formatDateTime(t))`
performed by `ensureUniqueTimestamps` on each row's instants.  It returns
`some t` exactly when the calendar year of `t` lies in 1000–9999 (the year
is rendered unpadded) and `none` otherwise.  It is made locally irreducible while the symbolic
lemmas about the uniqueness fold are proved, so that rewriting does not
descend into the string pipeline; concrete computations evaluate it as
usual. -/
def reparseInstant (t : Int) : Option Int :=
  parseTimestamp (some (JsVal.vStr (formatDateTime t)))

/-- The fold of `ensureUniqueTimestamps` over the rows, threading the global
`seen` set.  Each row's timestamps are re-parsed from their
`dd/mm/yyyy HH:mm:ss` rendering; the guard
`if (!abertura || !fechamento) return row;` passes a row through UNCHANGED
(and without touching `seen`) whenever either rendering fails to reparse —
which happens exactly when a calendar year lies outside 1000–9999, since
`formatDateTime` leaves the year unpadded.  When both reparse, the parsed
values (already at one-second resolution, so the source's normalization is
the identity) are advanced until globally free and recorded. -/
def ensureUniqueAux (seen : Finset Int) : List ProcessedRow → List ProcessedRow
  | [] => []
  | row :: rest =>
    match reparseInstant row.abertura, reparseInstant row.fechamento with
    | some abertura0, some fechamento0 =>
      let abertura := bumpFree seen abertura0 (seen.card + 1)
      let seen1 := insert abertura seen
      let fechamento := bumpFreeC seen1 abertura fechamento0 (seen1.card + 2)
      let seen2 := insert fechamento seen1
      ⟨row.filial, row.uf, abertura, fechamento,
          jsOr row.operadorAbertura "", jsOr row.operadorFechamento ""⟩ ::
        ensureUniqueAux seen2 rest
    | _, _ => row :: ensureUniqueAux seen rest

/-- Function `ensureUniqueTimestamps` of the source. -/
def ensureUniqueTimestamps (rows : List ProcessedRow) : List ProcessedRow :=
  ensureUniqueAux ∅ rows

/-- A row survives the render/reparse guard of the uniqueness pass with its
instants intact: both formatted timestamps parse back to the very same
instants.  This holds exactly when both calendar years lie in 1000–9999. -/
def rowRoundTrips (r : ProcessedRow) : Prop :=
  reparseInstant r.abertura = some r.abertura ∧
  reparseInstant r.fechamento = some r.fechamento

instance : DecidablePred rowRoundTrips := fun r => by
  unfold rowRoundTrips
  infer_instance

/-- Function `processDeterministic` of the source: classify, group by branch, resolve
every day in each branch's range, then enforce global instant
uniqueness. -/
def processDeterministic (rawData : List ExcelRow) : List ProcessedRow :=
  ensureUniqueTimestamps (processedRowsPre rawData)

set_option maxRecDepth 10000
set_option maxHeartbeats 1000000

/-! ### Lemmas about the uniqueness pass -/

section

attribute [local irreducible] reparseInstant

/-- With enough fuel to walk past every occupied instant at or above `t`,
the advancement loop lands on a free instant — so the bounded recursion
computes exactly what the unbounded source loop does. -/
theorem bumpFree_not_mem (occupied : Finset Int) :
    ∀ (fuel : Nat) (t : Int),
      (occupied.filter (fun x => t ≤ x)).card < fuel →
      bumpFree occupied t fuel ∉ occupied := by
  intro fuel
  induction fuel with
  | zero => intro t h; omega
  | succ n ih =>
    intro t h
    by_cases ht : t ∈ occupied
    · simp only [bumpFree, ht, if_true]
      apply ih
      have hlt : (occupied.filter (fun x => t + 1 ≤ x)).card <
          (occupied.filter (fun x => t ≤ x)).card := by
        apply Finset.card_lt_card
        constructor
        · intro x hx
          simp only [Finset.mem_filter] at hx ⊢
          exact ⟨hx.1, by omega⟩
        · intro hsub
          have h2 := hsub (Finset.mem_filter.mpr ⟨ht, le_refl t⟩)
          simp only [Finset.mem_filter] at h2
          omega
      omega
    · simp only [bumpFree, ht, if_false]
      trivial

/-- The closing-instant advancement loop ends free of the `seen` set and
distinct from the opening instant. -/
theorem bumpFreeC_spec (seen : Finset Int) (ab : Int) :
    ∀ (fuel : Nat) (t : Int),
      ((insert ab seen).filter (fun x => t ≤ x)).card < fuel →
      bumpFreeC seen ab t fuel ∉ seen ∧ bumpFreeC seen ab t fuel ≠ ab := by
  intro fuel
  induction fuel with
  | zero => intro t h; omega
  | succ n ih =>
    intro t h
    by_cases ht : t ∈ seen ∨ t = ab
    · simp only [bumpFreeC, ht, if_true]
      apply ih
      have htm : t ∈ insert ab seen := by
        rcases ht with h1 | h1
        · exact Finset.mem_insert_of_mem h1
        · simp [h1]
      have hlt : ((insert ab seen).filter (fun x => t + 1 ≤ x)).card <
          ((insert ab seen).filter (fun x => t ≤ x)).card := by
        apply Finset.card_lt_card
        constructor
        · intro x hx
          simp only [Finset.mem_filter] at hx ⊢
          exact ⟨hx.1, by omega⟩
        · intro hsub
          have h2 := hsub (Finset.mem_filter.mpr ⟨htm, le_refl t⟩)
          simp only [Finset.mem_filter] at h2
          omega
      omega
    · simp only [bumpFreeC, ht, if_false]
      push_neg at ht
      exact ht

/-- The opening advancement at its call-site fuel is free of `seen`. -/
theorem bumpFree_call (seen : Finset Int) (t : Int) :
    bumpFree seen t (seen.card + 1) ∉ seen :=
  bumpFree_not_mem seen _ t
    (lt_of_le_of_lt (Finset.card_filter_le _ _) (Nat.lt_succ_self _))

/-- The closing advancement at its call-site fuel is free of `seen1` and of
the opening. -/
theorem bumpFreeC_call (seen1 : Finset Int) (ab t : Int) :
    bumpFreeC seen1 ab t (seen1.card + 2) ∉ seen1 ∧
      bumpFreeC seen1 ab t (seen1.card + 2) ≠ ab :=
  bumpFreeC_spec seen1 ab _ t
    (lt_of_le_of_lt (Finset.card_filter_le _ _)
      (lt_of_le_of_lt (Finset.card_insert_le _ _) (Nat.lt_succ_self _)))

/-- Every instant emitted by the uniqueness fold, on rows that all survive
the render/reparse guard, avoids the incoming `seen` set. -/
theorem ensureUniqueAux_not_mem :
    ∀ (rows : List ProcessedRow) (seen : Finset Int),
      (∀ r ∈ rows, rowRoundTrips r) →
      ∀ r ∈ ensureUniqueAux seen rows, r.abertura ∉ seen ∧ r.fechamento ∉ seen := by
  intro rows
  induction rows with
  | nil => intro seen _ r hr; simp [ensureUniqueAux] at hr
  | cons row rest ih =>
    intro seen hrt r hr
    obtain ⟨h1, h2⟩ := hrt row (List.mem_cons_self _ _)
    have hrt2 : ∀ s ∈ rest, rowRoundTrips s :=
      fun s hs => hrt s (List.mem_cons_of_mem _ hs)
    simp only [ensureUniqueAux, h1, h2, List.mem_cons] at hr
    rcases hr with hr | hr
    · subst hr
      refine ⟨bumpFree_call seen row.abertura, ?_⟩
      have h3 := (bumpFreeC_call (insert (bumpFree seen row.abertura (seen.card + 1)) seen)
        (bumpFree seen row.abertura (seen.card + 1)) row.fechamento).1
      intro hmem
      exact h3 (Finset.mem_insert_of_mem hmem)
    · have h3 := ih _ hrt2 r hr
      constructor
      · intro hmem
        exact h3.1 (Finset.mem_insert_of_mem (Finset.mem_insert_of_mem hmem))
      · intro hmem
        exact h3.2 (Finset.mem_insert_of_mem (Finset.mem_insert_of_mem hmem))

/-- Within every row emitted by the uniqueness fold, on rows that all
survive the render/reparse guard, the opening differs from the closing. -/
theorem ensureUniqueAux_ab_ne_fe :
    ∀ (rows : List ProcessedRow) (seen : Finset Int),
      (∀ r ∈ rows, rowRoundTrips r) →
      ∀ r ∈ ensureUniqueAux seen rows, r.abertura ≠ r.fechamento := by
  intro rows
  induction rows with
  | nil => intro seen _ r hr; simp [ensureUniqueAux] at hr
  | cons row rest ih =>
    intro seen hrt r hr
    obtain ⟨h1, h2⟩ := hrt row (List.mem_cons_self _ _)
    simp only [ensureUniqueAux, h1, h2, List.mem_cons] at hr
    rcases hr with hr | hr
    · subst hr
      have h3 := (bumpFreeC_call (insert (bumpFree seen row.abertura (seen.card + 1)) seen)
        (bumpFree seen row.abertura (seen.card + 1)) row.fechamento).2
      exact fun h => h3 h.symm
    · exact ih _ (fun s hs => hrt s (List.mem_cons_of_mem _ hs)) r hr

/-- Distinct rows emitted by the uniqueness fold, on rows that all survive
the render/reparse guard, have pairwise distinct instants across both
fields. -/
theorem ensureUniqueAux_pairwise :
    ∀ (rows : List ProcessedRow) (seen : Finset Int),
      (∀ r ∈ rows, rowRoundTrips r) →
      (ensureUniqueAux seen rows).Pairwise (fun r s =>
        r.abertura ≠ s.abertura ∧ r.fechamento ≠ s.fechamento ∧
        r.abertura ≠ s.fechamento ∧ r.fechamento ≠ s.abertura) := by
  intro rows
  induction rows with
  | nil => intro seen _; simp [ensureUniqueAux]
  | cons row rest ih =>
    intro seen hrt
    obtain ⟨h1, h2⟩ := hrt row (List.mem_cons_self _ _)
    have hrt2 : ∀ s ∈ rest, rowRoundTrips s :=
      fun s hs => hrt s (List.mem_cons_of_mem _ hs)
    simp only [ensureUniqueAux, h1, h2]
    refine List.Pairwise.cons ?_ (ih _ hrt2)
    intro s hs
    have hfresh := ensureUniqueAux_not_mem rest _ hrt2 s hs
    have hab : (bumpFree seen row.abertura (seen.card + 1)) ∈
        insert (bumpFreeC (insert (bumpFree seen row.abertura (seen.card + 1)) seen)
          (bumpFree seen row.abertura (seen.card + 1)) row.fechamento
          ((insert (bumpFree seen row.abertura (seen.card + 1)) seen).card + 2))
        (insert (bumpFree seen row.abertura (seen.card + 1)) seen) :=
      Finset.mem_insert_of_mem (Finset.mem_insert_self _ _)
    have hfe : (bumpFreeC (insert (bumpFree seen row.abertura (seen.card + 1)) seen)
          (bumpFree seen row.abertura (seen.card + 1)) row.fechamento
          ((insert (bumpFree seen row.abertura (seen.card + 1)) seen).card + 2)) ∈
        insert (bumpFreeC (insert (bumpFree seen row.abertura (seen.card + 1)) seen)
          (bumpFree seen row.abertura (seen.card + 1)) row.fechamento
          ((insert (bumpFree seen row.abertura (seen.card + 1)) seen).card + 2))
        (insert (bumpFree seen row.abertura (seen.card + 1)) seen) :=
      Finset.mem_insert_self _ _
    refine ⟨fun h => hfresh.1 (h ▸ hab), fun h => hfresh.2 (h ▸ hfe),
      fun h => hfresh.2 (h ▸ hab), fun h => hfresh.1 (h ▸ hfe)⟩

/-- All instants (openings and closings interleaved, in row order) emitted
by the uniqueness fold. -/
def rowInstants (rows : List ProcessedRow) : List Int :=
  rows.flatMap (fun r => [r.abertura, r.fechamento])

/-- Instants the fold emits for round-tripping rows avoid the incoming
`seen` set. -/
theorem ensureUniqueAux_instants_not_mem
    (rows : List ProcessedRow) (seen : Finset Int)
    (hrt : ∀ r ∈ rows, rowRoundTrips r) (x : Int)
    (hx : x ∈ rowInstants (ensureUniqueAux seen rows)) : x ∉ seen := by
  simp only [rowInstants, List.mem_flatMap] at hx
  obtain ⟨r, hr, hx⟩ := hx
  have h2 := ensureUniqueAux_not_mem rows seen hrt r hr
  simp only [List.mem_cons, List.mem_singleton] at hx
  rcases hx with h | h | h
  · exact h ▸ h2.1
  · exact h ▸ h2.2
  · simp at h

/-- The instants the fold emits for round-tripping rows are pairwise
distinct. -/
theorem ensureUniqueAux_instants_nodup :
    ∀ (rows : List ProcessedRow) (seen : Finset Int),
      (∀ r ∈ rows, rowRoundTrips r) →
      (rowInstants (ensureUniqueAux seen rows)).Nodup := by
  intro rows
  induction rows with
  | nil => intro seen _; simp [ensureUniqueAux, rowInstants]
  | cons row rest ih =>
    intro seen hrt
    obtain ⟨h1, h2⟩ := hrt row (List.mem_cons_self _ _)
    have hrt2 : ∀ s ∈ rest, rowRoundTrips s :=
      fun s hs => hrt s (List.mem_cons_of_mem _ hs)
    simp only [ensureUniqueAux, h1, h2, rowInstants, List.flatMap_cons, List.cons_append,
      List.nil_append]
    set ab := bumpFree seen row.abertura (seen.card + 1) with hab
    set seen1 := insert ab seen with hseen1
    set fe := bumpFreeC seen1 ab row.fechamento (seen1.card + 2) with hfe
    set seen2 := insert fe seen1 with hseen2
    have habm : ab ∈ seen2 := Finset.mem_insert_of_mem (Finset.mem_insert_self _ _)
    have hfem : fe ∈ seen2 := Finset.mem_insert_self _ _
    have htail : ∀ x ∈ rowInstants (ensureUniqueAux seen2 rest), x ∉ seen2 :=
      fun x hx => ensureUniqueAux_instants_not_mem rest seen2 hrt2 x hx
    have habfe : fe ≠ ab := (bumpFreeC_call seen1 ab row.fechamento).2
    refine List.Nodup.cons ?_ (List.Nodup.cons ?_ (ih seen2 hrt2))
    · intro hmem
      rcases List.mem_cons.mp hmem with h | h
      · exact habfe h.symm
      · exact htail ab h habm
    · intro hmem
      exact htail fe hmem hfem

/-- The uniqueness fold only rewrites instants (or, behind the guard,
passes the row through unchanged): branch labels survive positionally, so
per-branch row counts are unchanged on every path. -/
theorem ensureUniqueAux_filter_filial_length (f : String) :
    ∀ (rows : List ProcessedRow) (seen : Finset Int),
      ((ensureUniqueAux seen rows).filter (fun r => decide (r.filial = f))).length =
        (rows.filter (fun r => decide (r.filial = f))).length := by
  intro rows
  induction rows with
  | nil => intro seen; simp [ensureUniqueAux]
  | cons row rest ih =>
    intro seen
    cases h1 : reparseInstant row.abertura with
    | none =>
      simp only [ensureUniqueAux, h1, List.filter_cons]
      by_cases hf : row.filial = f
      · simp [hf, ih]
      · simp [hf, ih]
    | some a =>
      cases h2 : reparseInstant row.fechamento with
      | none =>
        simp only [ensureUniqueAux, h1, h2, List.filter_cons]
        by_cases hf : row.filial = f
        · simp [hf, ih]
        · simp [hf, ih]
      | some b =>
        simp only [ensureUniqueAux, h1, h2, List.filter_cons]
        by_cases hf : row.filial = f
        · simp [hf, ih]
        · simp [hf, ih]

end

/-- C1 (amended).  Provided every resolved row's opening and closing
instants survive the `dd/mm/yyyy HH:mm:ss` render/reparse round trip of the
uniqueness pass — equivalently, their calendar years lie in 1000–9999, the
year being rendered unpadded — the final output of `processDeterministic`
satisfies: all pairs of distinct rows have different opening instants and
different closing instants, and within every row the opening instant
differs from the closing instant (one-second resolution).  A row whose
rendering fails to reparse is passed through the uniqueness pass unchanged
and may collide. -/
theorem processDeterministic_unique_instants (rawData : List ExcelRow)
    (hrt : ∀ r ∈ processedRowsPre rawData, rowRoundTrips r) :
    (processDeterministic rawData).Pairwise (fun r s =>
      r.abertura ≠ s.abertura ∧ r.fechamento ≠ s.fechamento) ∧
    ∀ r ∈ processDeterministic rawData, r.abertura ≠ r.fechamento := by
  constructor
  · have h := ensureUniqueAux_pairwise (processedRowsPre rawData) ∅ hrt
    exact h.imp (fun h4 => ⟨h4.1, h4.2.1⟩)
  · intro r hr
    exact ensureUniqueAux_ab_ne_fe (processedRowsPre rawData) ∅ hrt r hr

/-- Witness for C1 at a concrete input (the scenario-A record pair). -/
def scenarioARecords : List ExcelRow :=
  [[("Conta", JsVal.vStr "LOJA 318"),
    ("Data de recebimento", JsVal.vDate (instantOf 2025 10 31 5 57 3)),
    ("Código do evento", JsVal.vNum 1401)],
   [("Conta", JsVal.vStr "LOJA 318"),
    ("Data de recebimento", JsVal.vDate (instantOf 2025 10 31 22 8 7)),
    ("Código do evento", JsVal.vNum 3401)]]

/-- C1 witness: the uniqueness theorem applied at the concrete scenario-A
input (whose year-2025 instants round-trip). -/
theorem processDeterministic_unique_instants_witness :
    (processDeterministic scenarioARecords).Pairwise (fun r s =>
      r.abertura ≠ s.abertura ∧ r.fechamento ≠ s.fechamento) ∧
    ∀ r ∈ processDeterministic scenarioARecords, r.abertura ≠ r.fechamento :=
  processDeterministic_unique_instants scenarioARecords (by decide)

/-- Input with calendar year 999: both Disarms at `31/12/0999 06:00:00`
parse from the input text (four digits there), but the resolved rows
re-format to `31/12/999 06:00:00` — the unpadded year breaks the reparse of
the uniqueness pass, so both rows skip deduplication. -/
def smallYearRecords : List ExcelRow :=
  [[("Conta", JsVal.vStr "LOJA 1"),
    ("Data de recebimento", JsVal.vStr "31/12/0999 06:00:00"),
    ("Código do evento", JsVal.vNum 1401)],
   [("Conta", JsVal.vStr "LOJA 2"),
    ("Data de recebimento", JsVal.vStr "31/12/0999 06:00:00"),
    ("Código do evento", JsVal.vNum 1401)]]

/-- C1 counterexample: on the year-999 input both rows pass through the
uniqueness pass unchanged and the final output carries two rows with the
identical opening instant, so the unconditional uniqueness claim is false
of the program. -/
theorem processDeterministic_unique_instants_cex :
    ¬ ((processDeterministic smallYearRecords).Pairwise (fun r s =>
        r.abertura ≠ s.abertura ∧ r.fechamento ≠ s.fechamento) ∧
      ∀ r ∈ processDeterministic smallYearRecords, r.abertura ≠ r.fechamento) := by
  decide

/-- C10 (amended).  The uniqueness pass keeps one shared set of consumed
instants for openings and closings, so — provided every resolved row
survives the render/reparse round trip (calendar years in 1000–9999) — all
opening and closing instants of the final output are pairwise distinct
across both fields: the flattened opening/closing instant list has no
duplicate.  Rows whose rendering fails to reparse skip the pass and may
collide. -/
theorem processDeterministic_cross_field_distinct (rawData : List ExcelRow)
    (hrt : ∀ r ∈ processedRowsPre rawData, rowRoundTrips r) :
    (rowInstants (processDeterministic rawData)).Nodup :=
  ensureUniqueAux_instants_nodup (processedRowsPre rawData) ∅ hrt

/-- C10 witness: cross-field distinctness at the concrete scenario-A
input. -/
theorem processDeterministic_cross_field_distinct_witness :
    (rowInstants (processDeterministic scenarioARecords)).Nodup :=
  processDeterministic_cross_field_distinct scenarioARecords (by decide)

/-- C10 counterexample: on the year-999 input the two pass-through rows
share their opening instant, so the flattened instant list of the final
output has a duplicate and the unconditional claim is false of the
program. -/
theorem processDeterministic_cross_field_distinct_cex :
    ¬ (rowInstants (processDeterministic smallYearRecords)).Nodup := by
  decide

/-! ### Lemmas for per-branch day coverage -/

/-- The filial field of one day's row is the branch being processed. -/
theorem processDay_filial (filial : String) (filialEvents : List ClassifiedEvent)
    (day : Int) (st : DayState) :
    ((processDay filial filialEvents day st).1).filial = filial :=
  rfl

/-- The day loop emits exactly one row per visited day. -/
theorem processDays_length (filial : String) (filialEvents : List ClassifiedEvent) :
    ∀ (days : List Int) (st : DayState),
      (processDays filial filialEvents st days).length = days.length := by
  intro days
  induction days with
  | nil => intro st; simp [processDays]
  | cons d rest ih =>
    intro st
    simp only [processDays, List.length_cons, ih]

/-- Every row the day loop emits carries the branch label. -/
theorem processDays_filial (filial : String) (filialEvents : List ClassifiedEvent) :
    ∀ (days : List Int) (st : DayState) (r : ProcessedRow),
      r ∈ processDays filial filialEvents st days → r.filial = filial := by
  intro days
  induction days with
  | nil => intro st r hr; simp [processDays] at hr
  | cons d rest ih =>
    intro st r hr
    simp only [processDays, List.mem_cons] at hr
    rcases hr with hr | hr
    · rw [hr]; exact processDay_filial _ _ _ _
    · exact ih _ r hr

/-- Rows of one branch's block carry the branch label. -/
theorem processFilial_filial (events : List ClassifiedEvent) (f : String)
    (r : ProcessedRow) (hr : r ∈ processFilial events f) : r.filial = f :=
  processDays_filial f _ _ _ r hr

/-- The branch insertion-order fold keeps the accumulator duplicate-free. -/
theorem filialOrder_foldl_nodup :
    ∀ (events : List ClassifiedEvent) (acc : List String), acc.Nodup →
      (events.foldl (fun acc e => if e.filial ∈ acc then acc else acc ++ [e.filial])
        acc).Nodup := by
  intro events
  induction events with
  | nil => intro acc h; simpa using h
  | cons e rest ih =>
    intro acc h
    simp only [List.foldl_cons]
    by_cases hm : e.filial ∈ acc
    · simpa [hm] using ih acc h
    · have h2 : (acc ++ [e.filial]).Nodup := by
        simp [List.nodup_append, h, hm]
      simpa [hm] using ih _ h2

/-- The branch order list has no duplicates. -/
theorem filialOrder_nodup (events : List ClassifiedEvent) :
    (filialOrder events).Nodup :=
  filialOrder_foldl_nodup events [] List.nodup_nil

/-- Membership in the branch-order fold: a branch is in the result exactly
when it was in the accumulator or labels some event. -/
theorem filialOrder_foldl_mem :
    ∀ (events : List ClassifiedEvent) (acc : List String) (f : String),
      f ∈ events.foldl (fun acc e => if e.filial ∈ acc then acc else acc ++ [e.filial]) acc →
      f ∈ acc ∨ ∃ e ∈ events, e.filial = f := by
  intro events
  induction events with
  | nil => intro acc f h; exact Or.inl (by simpa using h)
  | cons e rest ih =>
    intro acc f h
    simp only [List.foldl_cons] at h
    by_cases hm : e.filial ∈ acc
    · rw [if_pos hm] at h
      rcases ih acc f h with h2 | ⟨e2, he2, hf⟩
      · exact Or.inl h2
      · exact Or.inr ⟨e2, List.mem_cons_of_mem _ he2, hf⟩
    · rw [if_neg hm] at h
      rcases ih _ f h with h2 | ⟨e2, he2, hf⟩
      · rcases List.mem_append.mp h2 with h3 | h3
        · exact Or.inl h3
        · exact Or.inr ⟨e, List.mem_cons_self _ _, (List.mem_singleton.mp h3).symm⟩
      · exact Or.inr ⟨e2, List.mem_cons_of_mem _ he2, hf⟩

/-- A branch in the processing order labels at least one event. -/
theorem filialOrder_mem (events : List ClassifiedEvent) (f : String)
    (h : f ∈ filialOrder events) : ∃ e ∈ events, e.filial = f := by
  rcases filialOrder_foldl_mem events [] f h with h2 | h2
  · simp at h2
  · exact h2

/-- Filtering a concatenation of per-branch blocks for a branch absent from
the order yields nothing. -/
theorem filter_flatten_blocks_none (blocks : String → List ProcessedRow) (f : String) :
    ∀ (order : List String), (∀ g ∈ order, g ≠ f) →
      (∀ g ∈ order, ∀ r ∈ blocks g, r.filial = g) →
      ((order.map blocks).flatten.filter (fun r => decide (r.filial = f))) = [] := by
  intro order
  induction order with
  | nil => intro _ _; simp
  | cons g rest ih =>
    intro hne hpure
    simp only [List.map_cons, List.flatten_cons, List.filter_append]
    rw [List.filter_eq_nil_iff.mpr, ih (fun g' hg' => hne g' (List.mem_cons_of_mem _ hg'))
      (fun g' hg' => hpure g' (List.mem_cons_of_mem _ hg')), List.append_nil]
    intro r hr
    have h2 := hpure g (List.mem_cons_self _ _) r hr
    simp [h2, hne g (List.mem_cons_self _ _)]

/-- Filtering the concatenation of per-branch blocks for a branch of a
duplicate-free order yields exactly that branch's block length. -/
theorem filter_flatten_blocks_length (blocks : String → List ProcessedRow) (f : String) :
    ∀ (order : List String), order.Nodup → f ∈ order →
      (∀ g ∈ order, ∀ r ∈ blocks g, r.filial = g) →
      ((order.map blocks).flatten.filter (fun r => decide (r.filial = f))).length =
        (blocks f).length := by
  intro order
  induction order with
  | nil => intro _ h; simp at h
  | cons g rest ih =>
    intro hnd hmem hpure
    simp only [List.map_cons, List.flatten_cons, List.filter_append, List.length_append]
    rcases List.mem_cons.mp hmem with hgf | hgf
    · have hgnotin : g ∉ rest := (List.nodup_cons.mp hnd).1
      have hrest : ∀ g' ∈ rest, g' ≠ g := fun g' hg' he => hgnotin (he ▸ hg')
      rw [hgf]
      rw [filter_flatten_blocks_none blocks g rest hrest
        (fun g' hg' => hpure g' (List.mem_cons_of_mem _ hg'))]
      rw [List.filter_eq_self.mpr]
      · simp
      · intro r hr
        simp [hpure g (List.mem_cons_self _ _) r hr]
    · have hg_ne : g ≠ f := by
        intro he
        exact (List.nodup_cons.mp hnd).1 (he.symm ▸ hgf)
      rw [List.filter_eq_nil_iff.mpr]
      · simpa using ih (List.nodup_cons.mp hnd).2 hgf
          (fun g' hg' => hpure g' (List.mem_cons_of_mem _ hg'))
      · intro r hr
        have h2 := hpure g (List.mem_cons_self _ _) r hr
        simp [h2, hg_ne]

/-- Length of the visited-day list on a nonempty range. -/
theorem dayList_length (a b : Int) (h : a ≤ b) :
    (dayList a b).length = (b - a).toNat + 1 := by
  simp only [dayList, List.length_map, List.length_range]
  omega

/-- The running minimum never exceeds the running maximum. -/
theorem foldl_min_le_foldl_max :
    ∀ (l : List Int) (a b : Int), a ≤ b → l.foldl min a ≤ l.foldl max b := by
  intro l
  induction l with
  | nil => intro a b h; simpa using h
  | cons x rest ih =>
    intro a b h
    simp only [List.foldl_cons]
    exact ih _ _ (le_trans (min_le_left a x) (le_trans h (le_max_left b x)))

/-- On a nonempty list the seeded minimum is at most the seeded maximum. -/
theorem listMin_le_listMax (l : List Int) (h : l ≠ []) : listMin l ≤ listMax l := by
  cases l with
  | nil => exact absurd rfl h
  | cons x rest => exact foldl_min_le_foldl_max rest x x (le_refl x)

/-- A branch in the processing order has a nonempty date list. -/
theorem datesOf_ne_nil (events : List ClassifiedEvent) (f : String)
    (h : f ∈ filialOrder events) : datesOf events f ≠ [] := by
  obtain ⟨e, he, hf⟩ := filialOrder_mem events f h
  intro hnil
  have h2 : e ∈ events.filter (fun e => decide (e.filial = f)) :=
    List.mem_filter.mpr ⟨he, by simp [hf]⟩
  have h3 : e.date ∈ datesOf events f := List.mem_map.mpr ⟨e, h2, rfl⟩
  rw [hnil] at h3
  simp at h3

/-- Membership is preserved by the stable insertion. -/
theorem mem_insOrd (lt : α → α → Bool) (x y : α) :
    ∀ (l : List α), y ∈ insOrd lt x l ↔ y = x ∨ y ∈ l := by
  intro l
  induction l with
  | nil => simp [insOrd]
  | cons z rest ih =>
    simp only [insOrd]
    by_cases h : lt x z
    · simp [h, List.mem_cons]
    · simp [h, List.mem_cons, ih]
      tauto

/-- Membership through the stable-sort fold. -/
theorem mem_sortStable_foldl (lt : α → α → Bool) :
    ∀ (l acc : List α) (y : α),
      y ∈ l.foldl (fun acc x => insOrd lt x acc) acc ↔ y ∈ acc ∨ y ∈ l := by
  intro l
  induction l with
  | nil => intro acc y; simp
  | cons x rest ih =>
    intro acc y
    simp only [List.foldl_cons, ih, mem_insOrd, List.mem_cons]
    tauto

/-- The stable sort permutes its input: membership is unchanged. -/
theorem mem_sortStable (lt : α → α → Bool) (l : List α) (y : α) :
    y ∈ sortStable lt l ↔ y ∈ l := by
  simp [sortStable, mem_sortStable_foldl]

/-- Classified events record the calendar date of their own timestamp. -/
theorem classifyEvents_date (rawData : List ExcelRow) (e : ClassifiedEvent)
    (he : e ∈ classifyEvents rawData) : e.date = getDateOnly e.timestamp := by
  simp only [classifyEvents, List.mem_filterMap] at he
  obtain ⟨row, _, hm⟩ := he
  unfold mkEvent at hm
  cases hp : parseTimestamp (jsLookup row "Data de recebimento") with
  | none => rw [hp] at hm; cases hm
  | some t =>
    rw [hp] at hm
    dsimp only at hm
    by_cases ho : classifyEvent row = EventType.other
    · rw [if_pos ho] at hm; cases hm
    · rw [if_neg ho] at hm
      injection hm with hm2
      rw [← hm2]

/-- Time-of-day seconds of a split triple. -/
theorem secondsToTime_todSeconds (n : Nat) :
    todSeconds (secondsToTime n) = n % 86400 := by
  simp only [secondsToTime, todSeconds]
  omega

/-- Every synthesized time has a time-of-day below one day. -/
theorem todSeconds_randomTimeBetween_lt (key : String) (a b c d : Nat) :
    todSeconds (randomTimeBetween key a b c d) < 86400 := by
  simp only [randomTimeBetween]
  rw [secondsToTime_todSeconds]
  omega

/-- The synthesized opening lies on its own day. -/
theorem synthAbertura_date (filial : String) (day : Int) :
    getDateOnly (synthAbertura filial day) = day := by
  have h := todSeconds_randomTimeBetween_lt
    ("OPEN-" ++ filial ++ "-" ++ isoDateString day) 5 30 8 30
  simp only [synthAbertura, OPEN_MIN_hour, OPEN_MIN_minute, OPEN_MAX_hour, OPEN_MAX_minute,
    getDateOnly] at h ⊢
  omega

/-- The resolved opening of a day lies on that day whenever every candidate
Disarm does. -/
theorem aberturaOf_date (filial : String) (day : Int) (desarmes : List ClassifiedEvent)
    (hds : ∀ e ∈ desarmes, getDateOnly e.timestamp = day) :
    getDateOnly (aberturaOf filial day desarmes) = day := by
  cases desarmes with
  | nil => exact synthAbertura_date filial day
  | cons e rest =>
    simp only [aberturaOf]
    by_cases hw : isInOpenWindow e.timestamp = true
    · simp only [hw, Bool.not_true, Bool.false_eq_true, if_false]
      exact hds e (List.mem_cons_self _ _)
    · simp only [Bool.not_eq_true] at hw
      simp only [hw, Bool.not_false, if_true]
      exact synthAbertura_date filial day

/-- The opening of one processed day lies on that day (for event lists whose
date field matches their timestamp, as classified events do). -/
theorem processDay_abertura_date (filial : String) (ev : List ClassifiedEvent)
    (day : Int) (st : DayState)
    (hwf : ∀ e ∈ ev, e.date = getDateOnly e.timestamp) :
    getDateOnly (((processDay filial ev day st).1).abertura) = day := by
  apply aberturaOf_date
  intro e he
  rw [mem_sortStable] at he
  have h1 := (List.mem_filter.mp he).2
  have h2 := List.mem_filter.mp (List.mem_filter.mp he).1
  have h3 : e.date = day := by
    have := h2.2
    simpa using this
  rw [← hwf e h2.1, h3]

/-- The day loop's rows, read through their opening's calendar date, are
exactly the visited days. -/
theorem processDays_dates (filial : String) (ev : List ClassifiedEvent)
    (hwf : ∀ e ∈ ev, e.date = getDateOnly e.timestamp) :
    ∀ (days : List Int) (st : DayState),
      (processDays filial ev st days).map (fun r => getDateOnly r.abertura) = days := by
  intro days
  induction days with
  | nil => intro st; simp [processDays]
  | cons d rest ih =>
    intro st
    simp only [processDays, List.map_cons, ih]
    rw [processDay_abertura_date filial ev d st hwf]

/-- Filtering the concatenated blocks for a branch of a duplicate-free order
yields exactly that branch's block. -/
theorem filter_flatten_blocks_eq (blocks : String → List ProcessedRow) (f : String) :
    ∀ (order : List String), order.Nodup → f ∈ order →
      (∀ g ∈ order, ∀ r ∈ blocks g, r.filial = g) →
      ((order.map blocks).flatten.filter (fun r => decide (r.filial = f))) = blocks f := by
  intro order
  induction order with
  | nil => intro _ h; simp at h
  | cons g rest ih =>
    intro hnd hmem hpure
    simp only [List.map_cons, List.flatten_cons, List.filter_append]
    rcases List.mem_cons.mp hmem with hgf | hgf
    · have hgnotin : g ∉ rest := (List.nodup_cons.mp hnd).1
      have hrest : ∀ g' ∈ rest, g' ≠ g := fun g' hg' he => hgnotin (he ▸ hg')
      rw [hgf]
      rw [filter_flatten_blocks_none blocks g rest hrest
        (fun g' hg' => hpure g' (List.mem_cons_of_mem _ hg'))]
      rw [List.filter_eq_self.mpr, List.append_nil]
      intro r hr
      simp [hpure g (List.mem_cons_self _ _) r hr]
    · have hg_ne : g ≠ f := by
        intro he
        exact (List.nodup_cons.mp hnd).1 (he.symm ▸ hgf)
      rw [List.filter_eq_nil_iff.mpr]
      · simpa using ih (List.nodup_cons.mp hnd).2 hgf
          (fun g' hg' => hpure g' (List.mem_cons_of_mem _ hg'))
      · intro r hr
        have h2 := hpure g (List.mem_cons_self _ _) r hr
        simp [h2, hg_ne]

/-- C2.  For every branch appearing among the classified events, the output
covers the branch's inclusive observed range `[D1, Dn]` with exactly one row
per calendar date: the final output holds `Dn - D1 + 1` rows of that branch,
and the per-day resolution emits exactly one row per day of the range walk —
the rows of the branch, read through their opening's calendar date before
the global uniqueness pass, enumerate `[D1, Dn]` in order, days with no
observed events (fully synthetic rows) included. -/
theorem processDeterministic_branch_coverage (rawData : List ExcelRow) (f : String)
    (hf : f ∈ filialOrder (classifyEvents rawData)) :
    ((processDeterministic rawData).filter (fun r => decide (r.filial = f))).length =
      (listMax (datesOf (classifyEvents rawData) f) -
        listMin (datesOf (classifyEvents rawData) f)).toNat + 1 ∧
    ((processedRowsPre rawData).filter (fun r => decide (r.filial = f))).map
        (fun r => getDateOnly r.abertura) =
      dayList (listMin (datesOf (classifyEvents rawData) f))
        (listMax (datesOf (classifyEvents rawData) f)) := by
  have hpure : ∀ g ∈ filialOrder (classifyEvents rawData),
      ∀ r ∈ processFilial (classifyEvents rawData) g, r.filial = g :=
    fun g _ r hr => processFilial_filial _ g r hr
  have hblock : (processedRowsPre rawData).filter (fun r => decide (r.filial = f)) =
      processFilial (classifyEvents rawData) f :=
    filter_flatten_blocks_eq _ f _ (filialOrder_nodup _) hf hpure
  constructor
  · calc ((processDeterministic rawData).filter (fun r => decide (r.filial = f))).length
        = ((processedRowsPre rawData).filter (fun r => decide (r.filial = f))).length :=
          ensureUniqueAux_filter_filial_length f (processedRowsPre rawData) ∅
      _ = (processFilial (classifyEvents rawData) f).length := by rw [hblock]
      _ = (dayList (listMin (datesOf (classifyEvents rawData) f))
            (listMax (datesOf (classifyEvents rawData) f))).length :=
          processDays_length _ _ _ _
      _ = _ :=
          dayList_length _ _ (listMin_le_listMax _ (datesOf_ne_nil _ f hf))
  · rw [hblock]
    exact processDays_dates f _
      (fun e he => classifyEvents_date rawData e (List.mem_of_mem_filter he)) _ _

/-- C2 witness: the coverage theorem applied at the concrete scenario-A
input for branch 318 (a one-day range, hence one row on the one date). -/
theorem processDeterministic_branch_coverage_witness :
    ((processDeterministic scenarioARecords).filter
        (fun r => decide (r.filial = "318"))).length =
      (listMax (datesOf (classifyEvents scenarioARecords) "318") -
        listMin (datesOf (classifyEvents scenarioARecords) "318")).toNat + 1 ∧
    ((processedRowsPre scenarioARecords).filter
        (fun r => decide (r.filial = "318"))).map
        (fun r => getDateOnly r.abertura) =
      dayList (listMin (datesOf (classifyEvents scenarioARecords) "318"))
        (listMax (datesOf (classifyEvents scenarioARecords) "318")) :=
  processDeterministic_branch_coverage scenarioARecords "318" (by decide)

/-! ### Determinism of the synthesized times -/

/-- C3.  `randomTimeBetween` is a pure function of the 32-bit hash of its
seed key and of the window bounds: any two invocations whose seed keys hash
alike (in particular, two invocations with the same key) return the
identical (hour, minute, second) triple, independent of call order, clock,
or any other input. -/
theorem randomTimeBetween_deterministic (k1 k2 : String)
    (startHour startMinute endHour endMinute : Nat)
    (h : jsHashString k1 = jsHashString k2) :
    randomTimeBetween k1 startHour startMinute endHour endMinute =
      randomTimeBetween k2 startHour startMinute endHour endMinute := by
  unfold randomTimeBetween
  rw [h]

/-- C3 witness: the colliding keys "Aa" and "BB" (equal 32-bit hashes) give
the identical synthesized triple for the opening window. -/
theorem randomTimeBetween_deterministic_witness :
    randomTimeBetween "Aa" 5 30 8 30 = randomTimeBetween "BB" 5 30 8 30 :=
  randomTimeBetween_deterministic "Aa" "BB" 5 30 8 30 (by decide)

/-! ### The documented reference synthesis algorithm -/

/-- Opening synthesis as documented by the spec (§4.3 Synthesis): hash the
seed string `OPEN-{branch}-{iso-date}` to a 32-bit integer, drive one step
of `state = (state * 9301 + 49297) mod 233280` normalized to `[0,1)`, pick a
second-resolution offset inside the inclusive window duration, and place it
on the day. -/
def specSynthOpening (branch : String) (day : Int) : Int :=
  let state0 := (jsHashString ("OPEN-" ++ branch ++ "-" ++ isoDateString day)).natAbs
  let state1 := (state0 * 9301 + 49297) % 233280
  let duration := timeToSeconds OPEN_MAX_hour OPEN_MAX_minute -
    timeToSeconds OPEN_MIN_hour OPEN_MIN_minute
  let offset := state1 * (duration + 1) / 233280
  day * 86400 + (timeToSeconds OPEN_MIN_hour OPEN_MIN_minute : Int) + (offset : Int)

/-- Closing synthesis as documented by the spec (§4.3 Synthesis): seed
`CLOSE-{branch}-{iso-date}`, offset inside the midnight-spanning window's
duration (`22:30` through `24:00` into `00:00–01:30`), measured additively
from `22:30` of the day — the instant lands on the next calendar date
exactly when the offset crosses midnight. -/
def specSynthClosing (branch : String) (day : Int) : Int :=
  let state0 := (jsHashString ("CLOSE-" ++ branch ++ "-" ++ isoDateString day)).natAbs
  let state1 := (state0 * 9301 + 49297) % 233280
  let duration := (24 * 3600 - timeToSeconds CLOSE_START_hour CLOSE_START_minute) +
    timeToSeconds CLOSE_END_hour CLOSE_END_minute
  let offset := state1 * (duration + 1) / 233280
  day * 86400 + (timeToSeconds CLOSE_START_hour CLOSE_START_minute : Int) + (offset : Int)

/-- Evaluation of `randomTimeBetween` on the opening window, in closed form. -/
theorem randomTimeBetween_open (key : String) :
    randomTimeBetween key 5 30 8 30 =
      secondsToTime (19800 +
        ((jsHashString key).natAbs * 9301 + 49297) % 233280 * 10801 / 233280) :=
  rfl

/-- Evaluation of `randomTimeBetween` on the midnight-spanning closing window,
in closed form. -/
theorem randomTimeBetween_close (key : String) :
    randomTimeBetween key 22 30 1 30 =
      secondsToTime
        (if ((jsHashString key).natAbs * 9301 + 49297) % 233280 * 10801 / 233280 < 5400
         then 81000 + ((jsHashString key).natAbs * 9301 + 49297) % 233280 * 10801 / 233280
         else ((jsHashString key).natAbs * 9301 + 49297) % 233280 * 10801 / 233280 - 5400) :=
  rfl

/-- Placement of a closing offset `pick ∈ [0, 10800]`: the hour/minute test
of the source puts the split time on the next day exactly when the offset
crossed midnight, which is the additive wrap from `22:30` of the day. -/
theorem close_placement (day : Int) (pick : Nat) (hpick : pick ≤ 10800) :
    (if (secondsToTime (if pick < 5400 then 81000 + pick else pick - 5400)).hour = 0 ∨
        ((secondsToTime (if pick < 5400 then 81000 + pick else pick - 5400)).hour = 1 ∧
          (secondsToTime (if pick < 5400 then 81000 + pick else pick - 5400)).minute ≤ 30)
     then (day + 1) * 86400 +
        (todSeconds (secondsToTime (if pick < 5400 then 81000 + pick else pick - 5400)) : Int)
     else day * 86400 +
        (todSeconds (secondsToTime (if pick < 5400 then 81000 + pick else pick - 5400)) : Int)) =
      day * 86400 + 81000 + (pick : Int) := by
  by_cases hc : pick < 5400
  · simp only [if_pos hc]
    have hcond : ¬((secondsToTime (81000 + pick)).hour = 0 ∨
        ((secondsToTime (81000 + pick)).hour = 1 ∧
          (secondsToTime (81000 + pick)).minute ≤ 30)) := by
      simp only [secondsToTime]
      omega
    rw [if_neg hcond, secondsToTime_todSeconds]
    omega
  · simp only [if_neg hc]
    have hcond : (secondsToTime (pick - 5400)).hour = 0 ∨
        ((secondsToTime (pick - 5400)).hour = 1 ∧
          (secondsToTime (pick - 5400)).minute ≤ 30) := by
      simp only [secondsToTime]
      omega
    rw [if_pos hcond, secondsToTime_todSeconds]
    omega

/-- C4.  The synthesized instants equal the documented reference algorithm:
the `{OPEN|CLOSE}-{branch}-{iso-date}` seed is hashed to a 32-bit integer,
one step of `state = (state * 9301 + 49297) mod 233280` normalized to
`[0,1)` picks a second-resolution offset inside the window duration, and
the midnight-spanning closing offset wraps from 22:30 through 24:00 into
00:00–01:30 of the next calendar date. -/
theorem synthesis_matches_reference (branch : String) (day : Int) :
    synthAbertura branch day = specSynthOpening branch day ∧
    synthFechamento branch day = specSynthClosing branch day := by
  constructor
  · simp only [synthAbertura, specSynthOpening, OPEN_MIN_hour, OPEN_MIN_minute,
      OPEN_MAX_hour, OPEN_MAX_minute, timeToSeconds]
    rw [randomTimeBetween_open, secondsToTime_todSeconds]
    have hlt : ((jsHashString ("OPEN-" ++ branch ++ "-" ++ isoDateString day)).natAbs *
        9301 + 49297) % 233280 < 233280 := Nat.mod_lt _ (by norm_num)
    push_cast
    omega
  · simp only [synthFechamento, specSynthClosing, CLOSE_START_hour, CLOSE_START_minute,
      CLOSE_END_hour, CLOSE_END_minute, timeToSeconds]
    rw [randomTimeBetween_close]
    have hlt : ((jsHashString ("CLOSE-" ++ branch ++ "-" ++ isoDateString day)).natAbs *
        9301 + 49297) % 233280 < 233280 := Nat.mod_lt _ (by norm_num)
    have hpick : ((jsHashString ("CLOSE-" ++ branch ++ "-" ++ isoDateString day)).natAbs *
        9301 + 49297) % 233280 * 10801 / 233280 ≤ 10800 := by omega
    rw [close_placement day _ hpick]
    omega

/-! ### Opening-window containment -/

/-- The synthesized opening lies inside `[05:30:00, 08:30:00]` of its day
(seconds since midnight in `[19800, 30600]`). -/
theorem synthAbertura_tod (filial : String) (day : Int) :
    19800 ≤ todOf (synthAbertura filial day) ∧
      todOf (synthAbertura filial day) ≤ 30600 := by
  have hlt : ((jsHashString ("OPEN-" ++ filial ++ "-" ++ isoDateString day)).natAbs *
      9301 + 49297) % 233280 < 233280 := Nat.mod_lt _ (by norm_num)
  have hpick : ((jsHashString ("OPEN-" ++ filial ++ "-" ++ isoDateString day)).natAbs *
      9301 + 49297) % 233280 * 10801 / 233280 ≤ 10800 := by omega
  simp only [synthAbertura, OPEN_MIN_hour, OPEN_MIN_minute, OPEN_MAX_hour, OPEN_MAX_minute,
    todOf]
  rw [randomTimeBetween_open, secondsToTime_todSeconds]
  generalize hg : ((jsHashString ("OPEN-" ++ filial ++ "-" ++ isoDateString day)).natAbs *
      9301 + 49297) % 233280 * 10801 / 233280 = pick
  rw [hg] at hpick
  clear hg hlt
  omega

/-- The resolved opening of one day lies inside `[05:30:00, 08:30:59]` of
its day: a kept first Disarm passed the hour/minute window check (seconds
ignored, hence the 59-second slack), and a synthesized opening lies inside
`[05:30:00, 08:30:00]`. -/
theorem aberturaOf_window (filial : String) (day : Int)
    (desarmes : List ClassifiedEvent) :
    19800 ≤ todOf (aberturaOf filial day desarmes) ∧
      todOf (aberturaOf filial day desarmes) ≤ 30659 := by
  cases desarmes with
  | nil =>
    have h := synthAbertura_tod filial day
    exact ⟨h.1, le_trans h.2 (by norm_num)⟩
  | cons e rest =>
    simp only [aberturaOf]
    by_cases hw : isInOpenWindow e.timestamp = true
    · simp only [hw, Bool.not_true, Bool.false_eq_true, if_false]
      simp only [isInOpenWindow, hourOf, minuteOf, todOf, timeToSeconds,
        OPEN_MIN_hour, OPEN_MIN_minute, OPEN_MAX_hour, OPEN_MAX_minute,
        decide_eq_true_eq] at hw
      simp only [todOf]
      omega
    · simp only [Bool.not_eq_true] at hw
      simp only [hw, Bool.not_false, if_true]
      have h := synthAbertura_tod filial day
      exact ⟨h.1, le_trans h.2 (by norm_num)⟩

/-- The row of one processed day keeps its opening inside
`[05:30:00, 08:30:59]`. -/
theorem processDay_abertura_window (filial : String) (ev : List ClassifiedEvent)
    (day : Int) (st : DayState) :
    19800 ≤ todOf (((processDay filial ev day st).1).abertura) ∧
      todOf (((processDay filial ev day st).1).abertura) ≤ 30659 :=
  aberturaOf_window filial day _

/-- Every row the day loop emits keeps its opening inside
`[05:30:00, 08:30:59]`. -/
theorem processDays_abertura_window (filial : String) (ev : List ClassifiedEvent) :
    ∀ (days : List Int) (st : DayState) (r : ProcessedRow),
      r ∈ processDays filial ev st days →
      19800 ≤ todOf r.abertura ∧ todOf r.abertura ≤ 30659 := by
  intro days
  induction days with
  | nil => intro st r hr; simp [processDays] at hr
  | cons d rest ih =>
    intro st r hr
    simp only [processDays, List.mem_cons] at hr
    rcases hr with hr | hr
    · rw [hr]; exact processDay_abertura_window filial ev d st
    · exact ih _ r hr

/-- C5 (amended).  Every opening instant produced by the per-day window
resolution — before the global uniqueness pass — lies within the inclusive
window `[05:30:00, 08:30:59]` of its day: the in-window check for a kept
same-day Disarm compares only hours and minutes, so kept originals may
carry seconds up to `08:30:59`, while every synthesized opening lies within
`[05:30:00, 08:30:00]`.  (The uniqueness pass may afterwards shift opening
instants past these bounds, one second per collision.) -/
theorem opening_window_containment :
    (∀ (rawData : List ExcelRow) (r : ProcessedRow), r ∈ processedRowsPre rawData →
      19800 ≤ todOf r.abertura ∧ todOf r.abertura ≤ 30659) ∧
    (∀ (filial : String) (day : Int),
      19800 ≤ todOf (synthAbertura filial day) ∧
        todOf (synthAbertura filial day) ≤ 30600) := by
  constructor
  · intro rawData r hr
    simp only [processedRowsPre, List.mem_flatten, List.mem_map] at hr
    obtain ⟨block, ⟨f, hf, hblock⟩, hrb⟩ := hr
    rw [← hblock] at hrb
    exact processDays_abertura_window f _ _ _ r hrb
  · exact synthAbertura_tod

/-- Input of the C5 counterexample: two branches, each with a Disarm at
`31/10/2025 08:30:59` (inside the hour/minute check, outside the inclusive
second-level window). -/
def doubleDisarmRecords : List ExcelRow :=
  [[("Conta", JsVal.vStr "LOJA 1"),
    ("Data de recebimento", JsVal.vDate (instantOf 2025 10 31 8 30 59)),
    ("Código do evento", JsVal.vNum 1401)],
   [("Conta", JsVal.vStr "LOJA 2"),
    ("Data de recebimento", JsVal.vDate (instantOf 2025 10 31 8 30 59)),
    ("Código do evento", JsVal.vNum 1401)]]

/-- C5 counterexample: on the double-Disarm input the final openings sit at
`08:30:59` (kept original, seconds ignored by the window check) and
`08:31:00` (pushed out of the window by the uniqueness pass) — not every
final opening lies within `[05:30:00, 08:30:00]`. -/
theorem opening_window_containment_cex :
    ¬ (∀ r ∈ processDeterministic doubleDisarmRecords,
        19800 ≤ todOf r.abertura ∧ todOf r.abertura ≤ 30600) := by
  decide

/-- C5 witness: the amended containment applied to the concrete scenario-A
row (its kept opening `05:57:03` has seconds-since-midnight 21423). -/
theorem opening_window_containment_witness :
    19800 ≤ todOf (instantOf 2025 10 31 5 57 3) ∧
      todOf (instantOf 2025 10 31 5 57 3) ≤ 30659 :=
  opening_window_containment.1 scenarioARecords
    ⟨"318", "SE", instantOf 2025 10 31 5 57 3, instantOf 2025 11 1 0 57 16, "", ""⟩
    (by decide)

/-! ### Scenario A, branch ordering and the remote-arm operator -/

/-- C6 counterexample: for the scenario-A input (Disarm `31/10/2025
05:57:03`, Arm `31/10/2025 22:08:07`, account `LOJA 318`) the closing is
not the Arm instant kept verbatim — `22:08` lies before the `22:30` start
of the closing window, so the code replaces it. -/
theorem scenarioA_closing_not_kept :
    (processDeterministic scenarioARecords).map (fun r => r.fechamento) ≠
      [instantOf 2025 10 31 22 8 7] := by
  decide

/-- C6 (amended).  For the scenario-A input the output is exactly one row:
branch `318`, opening `31/10/2025 05:57:03` kept verbatim, closing replaced
by the deterministic synthesized instant `01/11/2025 00:57:16` (seed
`CLOSE-318-2025-10-31`), because `22:08:07` lies outside the
`22:30:00–23:59` same-day closing window. -/
theorem scenarioA_output :
    processDeterministic scenarioARecords =
      [⟨"318", "SE", instantOf 2025 10 31 5 57 3, instantOf 2025 11 1 0 57 16, "", ""⟩] := by
  decide

/-- Input of the C7 failing case: the first classified event belongs to the
non-numeric branch `ESCRITÓRIO`, the second to the numeric branch `5`. -/
def mixedBranchRecords : List ExcelRow :=
  [[("Conta", JsVal.vStr "ESCRITÓRIO CENTRAL"),
    ("Data de recebimento", JsVal.vDate (instantOf 2025 10 31 6 0 0)),
    ("Código do evento", JsVal.vNum 1401)],
   [("Conta", JsVal.vStr "LOJA 5"),
    ("Data de recebimento", JsVal.vDate (instantOf 2025 10 31 6 30 0)),
    ("Código do evento", JsVal.vNum 1401)]]

/-- C7 failing case: `processDeterministic` performs no branch sort — the
final rows keep first-appearance order, here the non-numeric `ESCRITÓRIO`
before the numeric `5`, contradicting the documented numeric-first
ascending order. -/
theorem output_branch_order_first_appearance :
    (processDeterministic mixedBranchRecords).map (fun r => r.filial) =
      ["ESCRITÓRIO", "5"] := by
  decide

/-- A raw record whose description contains `ARMADO REMOTO` and which has no
operator column. -/
def remoteArmRecord : ExcelRow :=
  [("Conta", JsVal.vStr "LOJA 10"),
   ("Data de recebimento", JsVal.vDate (instantOf 2025 10 31 22 40 0)),
   ("Código do evento", JsVal.vNum 3401),
   ("Descrição", JsVal.vStr "ARMADO REMOTO")]

/-- C8 failing case: the shipped `getOperadorOriginal` has no remote-arming
special case — on a record whose description contains `ARMADO REMOTO` it
falls through the whole cascade and returns the empty string, never the
literal `ARME REMOTO`. -/
theorem remote_arm_operator_empty :
    getOperadorOriginal remoteArmRecord = "" ∧
      getOperadorOriginal remoteArmRecord ≠ "ARME REMOTO" := by
  decide

/-! ### Silent degradation of bad records -/

/-- A raw record the classification loop drops: unparsable timestamp or an
event that is neither a Disarm nor an Arm. -/
def droppedRecord (row : ExcelRow) : Prop :=
  parseTimestamp (jsLookup row "Data de recebimento") = none ∨
    classifyEvent row = EventType.other

instance : DecidablePred droppedRecord := fun row => by
  unfold droppedRecord
  infer_instance

/-- A dropped record produces no classified event. -/
theorem mkEvent_eq_none_of_dropped (row : ExcelRow) (h : droppedRecord row) :
    mkEvent row = none := by
  unfold mkEvent
  rcases h with h | h
  · rw [h]
  · cases hp : parseTimestamp (jsLookup row "Data de recebimento") with
    | none => rfl
    | some t => simp [h]

/-- Removing the dropped records from the input leaves the classified event
stream unchanged. -/
theorem classifyEvents_filter_dropped (rawData : List ExcelRow) :
    classifyEvents (rawData.filter (fun row => decide (¬ droppedRecord row))) =
      classifyEvents rawData := by
  unfold classifyEvents
  induction rawData with
  | nil => rfl
  | cons row rest ih =>
    simp only [decide_not] at ih ⊢
    by_cases h : droppedRecord row
    · simp [List.filter_cons, h, List.filterMap_cons, mkEvent_eq_none_of_dropped row h, ih]
    · simp [List.filter_cons, h, List.filterMap_cons, ih]

/-- C9.  Per-record data problems never raise an error: a record with an
unparsable timestamp or an unclassifiable event type is silently dropped
from the event stream — the run on any input equals the run on the input
with those records removed — and the call always returns a row list (the
embedding is a total function; unresolvable operators yield the empty
string by `getOperadorOriginal`'s final fallback). -/
theorem processDeterministic_drops_bad_records (rawData : List ExcelRow) :
    processDeterministic rawData =
      processDeterministic (rawData.filter (fun row => decide (¬ droppedRecord row))) := by
  unfold processDeterministic processedRowsPre
  rw [classifyEvents_filter_dropped]
